import Mathlib

/-!
Verification of the EPUB parsing / asset-inlining core of `epub2pdf`
(`internal/epub/parser.go`), via a shallow embedding.

Go strings are byte sequences; we model them as `List Nat` with every
element a byte value (< 256).  ASCII constants are written with the
helper `bytes`.  Go standard-library helpers (`strings.*`, `path.*`,
`net/url.QueryUnescape`, `encoding/base64`) are modelled by their
documented semantics, with names mirroring the Go originals.  Unicode
case folding is modelled on the ASCII range only (all patterns the code
matches case-insensitively are pure ASCII).
-/

namespace Epub2Pdf

/-- Byte string of an ASCII Lean string literal. -/
def bytes (s : String) : List Nat := s.toList.map Char.toNat

/-- ASCII lower-casing of a single byte (models `strings.ToLower` /
`(?i)` matching for the ASCII range). -/
def toLowerByte (b : Nat) : Nat := if 65 ≤ b ∧ b ≤ 90 then b + 32 else b

/-- Byte-wise ASCII lower-casing of a byte string. -/
def lowerB (s : List Nat) : List Nat := s.map toLowerByte

/-- Models `strings.HasPrefix(s, pat)`, written `hasPrefixB pat s`. -/
def hasPrefixB : List Nat → List Nat → Bool
  | [], _ => true
  | _ :: _, [] => false
  | p :: ps, c :: cs => p == c && hasPrefixB ps cs

/-- Models `strings.HasSuffix(s, pat)`, written `hasSuffixB pat s`. -/
def hasSuffixB (pat s : List Nat) : Bool := hasPrefixB pat.reverse s.reverse

/-- First index of byte `b` in `s` (models `strings.Index(s, one-byte)`
and `strings.IndexByte`). -/
def indexOfB? (b : Nat) : List Nat → Option Nat
  | [] => none
  | c :: t => if c == b then some 0 else (indexOfB? b t).map (· + 1)

/-- First index at which `pat` occurs in `s` (models `strings.Index`). -/
def indexOfSeq? (pat : List Nat) : List Nat → Option Nat
  | [] => if hasPrefixB pat [] then some 0 else none
  | c :: t =>
    if hasPrefixB pat (c :: t) then some 0 else (indexOfSeq? pat t).map (· + 1)

/-- Last index at which `pat` occurs in `s` (models `strings.LastIndex`). -/
def lastIndexOfSeq? (pat s : List Nat) : Option Nat :=
  ((List.range (s.length + 1)).filter (fun i => hasPrefixB pat (s.drop i))).getLast?

/-- Last index of byte `b` in `s` (models `strings.LastIndexByte`, used by
`path.Split`). -/
def lastIndexOfB? (b : Nat) (s : List Nat) : Option Nat :=
  ((List.range s.length).filter (fun i => s.getD i 0 == b)).getLast?

/-- Models `strings.Contains(s, pat)`, written `containsSeq pat s`. -/
def containsSeq (pat s : List Nat) : Bool := (indexOfSeq? pat s).isSome

/-- First `f a` that is `some`, over a list of candidates. -/
def firstSome : List α → (α → Option β) → Option β
  | [], _ => none
  | a :: t, f => match f a with | some b => some b | none => firstSome t f

theorem hasPrefixB_length {pat s : List Nat} (h : hasPrefixB pat s = true) :
    pat.length ≤ s.length := by
  induction pat generalizing s with
  | nil => simp
  | cons p ps ih =>
    cases s with
    | nil => simp [hasPrefixB] at h
    | cons c cs =>
      simp only [hasPrefixB, Bool.and_eq_true] at h
      simpa using ih h.2

theorem hasPrefixB_append (pat l : List Nat) : hasPrefixB pat (pat ++ l) = true := by
  induction pat with
  | nil => rfl
  | cons p ps ih => simp [hasPrefixB, ih]

/-! ### The Go `path` package (lexical path handling)

`path.Clean`, `path.Join`, `path.Dir` modelled by their documented
lexical semantics: split on `/`, drop empty and `.` segments, resolve
`..` against the segment stack (clamping at the root when rooted,
accumulating `..` when not). -/

/-- Split a byte string on `/` (byte 47), keeping empty segments. -/
def splitOnSlash : List Nat → List (List Nat)
  | [] => [[]]
  | 47 :: t => [] :: splitOnSlash t
  | c :: t =>
    match splitOnSlash t with
    | [] => [[c]]
    | seg :: rest => (c :: seg) :: rest

/-- One step of `path.Clean`'s segment processing. -/
def cleanStep (rooted : Bool) (acc : List (List Nat)) (seg : List Nat) :
    List (List Nat) :=
  if seg = bytes ".." then
    if acc ≠ [] ∧ acc.getLast? ≠ some (bytes "..") then acc.dropLast
    else if rooted then acc
    else acc ++ [seg]
  else acc ++ [seg]

/-- Models Go `path.Clean`. -/
def pathClean (p : List Nat) : List Nat :=
  if p = [] then bytes "." else
  let rooted := p.head? = some 47
  let segs := (splitOnSlash p).filter (fun s => s ≠ [] ∧ s ≠ bytes ".")
  let out := segs.foldl (cleanStep rooted) []
  let joined := (out.intersperse (bytes "/")).flatten
  if rooted then 47 :: joined
  else if joined = [] then bytes "." else joined

/-- Models Go `path.Join(a, b)` (two arguments, as used by the code). -/
def pathJoin2 (a b : List Nat) : List Nat :=
  if a = [] ∧ b = [] then []
  else if a = [] then pathClean b
  else pathClean (a ++ 47 :: b)

/-- Models Go `path.Dir`: everything up to and including the final `/`,
cleaned; `.` when there is no slash. -/
def pathDir (p : List Nat) : List Nat :=
  match lastIndexOfB? 47 p with
  | none => bytes "."
  | some i => pathClean (p.take (i + 1))

/-! ### `net/url.QueryUnescape`

Go's `unescape(s, encodeQueryComponent)` runs two passes: a validation
pass that rejects any `%` not followed by two hex digits, and a build
pass that decodes `%XX` to a byte and `+` to a space. -/

/-- Go `ishex`. -/
def ishexB (c : Nat) : Bool :=
  (48 ≤ c && c ≤ 57) || (97 ≤ c && c ≤ 102) || (65 ≤ c && c ≤ 70)

/-- Go `unhex` (value of a hex digit byte; 0 on non-hex, never reached
on validated input). -/
def unhexB (c : Nat) : Nat :=
  if 48 ≤ c ∧ c ≤ 57 then c - 48
  else if 97 ≤ c ∧ c ≤ 102 then c - 87
  else if 65 ≤ c ∧ c ≤ 70 then c - 55
  else 0

/-- Validation pass of Go `url.unescape`: `%` must be followed by two
hex digits. -/
def validEscapes : List Nat → Bool
  | [] => true
  | 37 :: h1 :: h2 :: t => ishexB h1 && ishexB h2 && validEscapes t
  | 37 :: _ => false
  | _ :: t => validEscapes t

/-- Build pass of Go `url.unescape` in query mode (only run on validated
input): `%XX` becomes the byte `16*X+X`, `+` becomes a space. -/
def unescapeRun : List Nat → List Nat
  | [] => []
  | 37 :: h1 :: h2 :: t => (16 * unhexB h1 + unhexB h2) :: unescapeRun t
  | 43 :: t => 32 :: unescapeRun t
  | c :: t => c :: unescapeRun t

/-- Models Go `url.QueryUnescape`: `none` on a malformed percent escape. -/
def queryUnescape (s : List Nat) : Option (List Nat) :=
  if validEscapes s then some (unescapeRun s) else none

/-- Single-pass specification decoder: decodes `%XX` escapes, turns `+`
into a space, leaves every other byte unchanged, and fails exactly on a
malformed escape.  Used to characterize `queryUnescape`. -/
def percentPlusDecode : List Nat → Option (List Nat)
  | [] => some []
  | 37 :: h1 :: h2 :: t =>
    if ishexB h1 && ishexB h2 then
      (percentPlusDecode t).map ((16 * unhexB h1 + unhexB h2) :: ·)
    else none
  | 37 :: _ => none
  | 43 :: t => (percentPlusDecode t).map (32 :: ·)
  | c :: t => (percentPlusDecode t).map (c :: ·)

/-! ### Image classification and base64 -/

/-- Models `isImageFile` from `parser.go`. -/
def isImageFile (src : List Nat) : Bool :=
  let l := lowerB src
  hasSuffixB (bytes ".jpg") l || hasSuffixB (bytes ".jpeg") l ||
  hasSuffixB (bytes ".png") l || hasSuffixB (bytes ".gif") l ||
  hasSuffixB (bytes ".svg") l || hasSuffixB (bytes ".webp") l ||
  hasSuffixB (bytes ".bmp") l || hasSuffixB (bytes ".ico") l

/-- Models `getMimeType` from `parser.go` (empty byte string encodes
Go's `""` result for an unrecognized extension). -/
def getMimeType (filename : List Nat) : List Nat :=
  let l := lowerB filename
  if hasSuffixB (bytes ".jpg") l || hasSuffixB (bytes ".jpeg") l then bytes "image/jpeg"
  else if hasSuffixB (bytes ".png") l then bytes "image/png"
  else if hasSuffixB (bytes ".gif") l then bytes "image/gif"
  else if hasSuffixB (bytes ".svg") l then bytes "image/svg+xml"
  else if hasSuffixB (bytes ".webp") l then bytes "image/webp"
  else if hasSuffixB (bytes ".bmp") l then bytes "image/bmp"
  else if hasSuffixB (bytes ".ico") l then bytes "image/x-icon"
  else []

/-- The base64 alphabet of Go `base64.StdEncoding`, as ASCII bytes. -/
def b64char (i : Nat) : Nat :=
  (bytes "ABCDEFGHIJKLMNOPQRSTUVWXYZabcdefghijklmnopqrstuvwxyz0123456789+/").getD i 0

/-- Models Go `base64.StdEncoding.EncodeToString`: 3-byte groups become
4 alphabet bytes; a 1- or 2-byte tail is padded with `=` (byte 61). -/
def base64encode : List Nat → List Nat
  | [] => []
  | [b1] =>
    let n := b1 * 65536
    [b64char (n / 262144 % 64), b64char (n / 4096 % 64), 61, 61]
  | [b1, b2] =>
    let n := b1 * 65536 + b2 * 256
    [b64char (n / 262144 % 64), b64char (n / 4096 % 64), b64char (n / 64 % 64), 61]
  | b1 :: b2 :: b3 :: rest =>
    let n := b1 * 65536 + b2 * 256 + b3
    b64char (n / 262144 % 64) :: b64char (n / 4096 % 64) ::
      b64char (n / 64 % 64) :: b64char (n % 64) :: base64encode rest

/-- Index of a byte in the base64 alphabet (inverse table). -/
def b64inv (c : Nat) : Nat :=
  ((List.range 64).filter (fun i => b64char i == c)).headD 0

/-- Standard base64 decoder on well-padded input (the specification-side
inverse used to state the round-trip property of the inliner's payload). -/
def base64decode : List Nat → List Nat
  | c1 :: c2 :: c3 :: c4 :: rest =>
    if c4 = 61 then
      if c3 = 61 then [b64inv c1 * 4 + b64inv c2 / 16]
      else [b64inv c1 * 4 + b64inv c2 / 16, b64inv c2 % 16 * 16 + b64inv c3 / 4]
    else
      (b64inv c1 * 4 + b64inv c2 / 16) :: (b64inv c2 % 16 * 16 + b64inv c3 / 4) ::
        (b64inv c3 % 4 * 64 + b64inv c4) :: base64decode rest
  | _ => []

/-! ### Path resolution and the asset inliner (`resolveAndEmbed`) -/

/-- The archive: stored path to raw bytes.  Go builds a map from the zip
entry names with later duplicates overwriting earlier ones; we model the
lookup as last-entry-wins on an association list. -/
abbrev Archive := List (List Nat × List Nat)

/-- Archive lookup (Go map indexing, last entry with a given name wins). -/
def lookupA (files : Archive) (p : List Nat) : Option (List Nat) :=
  (files.reverse.find? (fun e => e.1 == p)).map (·.2)

/-- Models `resolvePath` from `parser.go`. -/
def resolvePath (basePath href : List Nat) : List Nat :=
  if basePath = [] then href else pathJoin2 basePath href

/-- Models `resolveRelativePath` from `parser.go`: each leading `../`
consumes one `path.Dir` of the base, recursively, then the remainder is
joined. -/
def resolveRelativePath (basePath href : List Nat) : List Nat :=
  if basePath = [] then href
  else if _h : hasPrefixB (bytes "../") href = true then
    resolveRelativePath (pathDir basePath) (href.drop 3)
  else pathJoin2 basePath href
termination_by href.length
decreasing_by
  have h3 : (bytes "../").length = 3 := rfl
  have := hasPrefixB_length _h
  rw [h3] at this
  simp only [List.length_drop]
  omega

/-- Models `normalizePath` from `parser.go`: `path.Clean` then
`strings.TrimPrefix(_, "/")`. -/
def normalizePath (p : List Nat) : List Nat :=
  let cleaned := pathClean p
  if hasPrefixB (bytes "/") cleaned then cleaned.drop 1 else cleaned

/-- Fragment stripping in `resolveAndEmbed`: cut at the first `#`. -/
def stripFragment (src : List Nat) : List Nat :=
  match indexOfB? 35 src with
  | some i => src.take i
  | none => src

/-- The decode step of `resolveAndEmbed`: use the unescaped string when
decoding succeeds, the original on a decode error. -/
def decodeStep (s : List Nat) : List Nat := (queryUnescape s).getD s

/-- The fully cleaned reference: fragment stripped, then percent-decoded
with fallback. -/
def cleanedSrc (src : List Nat) : List Nat := decodeStep (stripFragment src)

/-- The payload builder at the end of `resolveAndEmbed`: mime check then
`data:<mime>;base64,<encoded>`. -/
def embedPayload (cleanSrc data : List Nat) : List Nat :=
  let mime := getMimeType cleanSrc
  if mime = [] then []
  else bytes "data:" ++ mime ++ bytes ";base64," ++ base64encode data

/-- Models `resolveAndEmbed` from `parser.go`.  The empty byte string is
Go's `""` result ("absent": the caller leaves the reference unchanged). -/
def resolveAndEmbed (src basePath : List Nat) (files : Archive) : List Nat :=
  if hasPrefixB (bytes "data:") src || hasPrefixB (bytes "http://") src ||
      hasPrefixB (bytes "https://") src then []
  else
    let cleanSrc := cleanedSrc src
    let imagePath := resolveRelativePath basePath cleanSrc
    match lookupA files imagePath with
    | some data => embedPayload cleanSrc data
    | none =>
      match lookupA files cleanSrc with
      | some data => embedPayload cleanSrc data
      | none =>
        match lookupA files (normalizePath imagePath) with
        | some data => embedPayload cleanSrc data
        | none => []

/-! ### The markup rewriter (`embedImages`)

`embedImages` applies three Go regular expressions with
`ReplaceAllStringFunc`.  Go's regexp engine uses leftmost-first
(backtracking-preference) match semantics; the three patterns are
concatenations of case-insensitive literals, greedy character-class
repetitions and optional quotes, so we model each with a direct matcher:
maximal-munch for the repetitions whose class excludes the following
literal (no backtracking can change the outcome there) and explicit
longest-first backtracking for `[^>]*` in the image-tag pattern.  Each
pattern's four capture groups cover the whole match. -/

/-- The four capture groups of a pattern match plus the unconsumed rest. -/
structure MatchParts where
  g1 : List Nat
  g2 : List Nat
  g3 : List Nat
  g4 : List Nat
  rest : List Nat
  deriving Repr, DecidableEq

/-- Go regexp `\s`: `[\t\n\f\r ]`. -/
def isSpaceB (b : Nat) : Bool := b == 9 || b == 10 || b == 12 || b == 13 || b == 32

/-- A quote byte, `"` or the single-quote (39). -/
def isQuoteB (b : Nat) : Bool := b == 34 || b == 39

/-- Maximal run of bytes satisfying `p` and the remainder. -/
def munch (p : Nat → Bool) : List Nat → List Nat × List Nat
  | [] => ([], [])
  | c :: t =>
    if p c then
      let (u, v) := munch p t
      (c :: u, v)
    else ([], c :: t)

/-- Candidate splits for a greedy class repetition, longest first
(leftmost-first backtracking order). -/
def starSplits (p : Nat → Bool) (s : List Nat) : List (List Nat × List Nat) :=
  let (u, v) := munch p s
  ((List.range (u.length + 1)).reverse).map (fun k => (u.take k, u.drop k ++ v))

/-- Case-insensitive literal: consume `pat` (given lower-case) from the
front of `s`, returning the original-case consumed text and the rest. -/
def stripCI (pat s : List Nat) : Option (List Nat × List Nat) :=
  if hasPrefixB pat (lowerB s) then some (s.take pat.length, s.drop pat.length)
  else none

/-- Shared tail `\s*=\s*(["'])([^"']+)(["'])` of the first two patterns.
Returns groups with `g1` holding only the consumed `\s*=\s*` text. -/
def matchEqQuoted (v : List Nat) : Option MatchParts :=
  let (sp1, v1) := munch isSpaceB v
  match v1 with
  | 61 :: v2 =>
    let (sp2, v3) := munch isSpaceB v2
    match v3 with
    | q :: v4 =>
      if isQuoteB q then
        let (body, v5) := munch (fun b => !isQuoteB b) v4
        if body.isEmpty then none
        else
          match v5 with
          | q2 :: v6 =>
            if isQuoteB q2 then some ⟨sp1 ++ [61] ++ sp2, [q], body, [q2], v6⟩
            else none
          | [] => none
      else none
    | [] => none
  | _ => none

/-- Anchored matcher for `(?i)(<img[^>]*\ssrc\s*=\s*)(["'])([^"']+)(["'])`. -/
def matchImgSrc (s : List Nat) : Option MatchParts :=
  match stripCI (bytes "<img") s with
  | none => none
  | some (imgTxt, t0) =>
    firstSome (starSplits (fun b => b != 62) t0) (fun uv =>
      match uv.2 with
      | c :: v1 =>
        if isSpaceB c then
          match stripCI (bytes "src") v1 with
          | some (srcTxt, v2) =>
            (matchEqQuoted v2).map
              (fun m => { m with g1 := imgTxt ++ uv.1 ++ c :: srcTxt ++ m.g1 })
          | none => none
        else none
      | [] => none)

/-- Anchored matcher for `(?i)(xlink:href\s*=\s*)(["'])([^"']+)(["'])`. -/
def matchXlink (s : List Nat) : Option MatchParts :=
  match stripCI (bytes "xlink:href") s with
  | none => none
  | some (txt, t0) =>
    (matchEqQuoted t0).map (fun m => { m with g1 := txt ++ m.g1 })

/-- Anchored matcher for `(?i)(url\s*\(\s*)(["']?)([^"')]+)(["']?\s*\))`. -/
def matchCssUrl (s : List Nat) : Option MatchParts :=
  match stripCI (bytes "url") s with
  | none => none
  | some (txt, t0) =>
    let (sp1, v1) := munch isSpaceB t0
    match v1 with
    | 40 :: v2 =>
      let (sp2, v3) := munch isSpaceB v2
      let (optq, v4) :=
        match v3 with
        | q :: vq => if isQuoteB q then ([q], vq) else ([], v3)
        | [] => ([], v3)
      let (body, v5) := munch (fun b => !isQuoteB b && b != 41) v4
      if body.isEmpty then none
      else
        let (optq2, v6) :=
          match v5 with
          | q :: vq => if isQuoteB q then ([q], vq) else ([], v5)
          | [] => ([], v5)
        let (sp3, v7) := munch isSpaceB v6
        match v7 with
        | 41 :: v8 => some ⟨txt ++ sp1 ++ [40] ++ sp2, optq, body, optq2 ++ sp3 ++ [41], v8⟩
        | _ => none
    | _ => none

/-- The replacement closure for the image-tag pattern: inline on success,
return the full original match otherwise. -/
def imgReplace (basePath : List Nat) (files : Archive) (m : MatchParts) : List Nat :=
  let d := resolveAndEmbed m.g3 basePath files
  if d = [] then m.g1 ++ m.g2 ++ m.g3 ++ m.g4
  else m.g1 ++ m.g2 ++ d ++ m.g4

/-- The replacement closure for the vector-graphics cross-reference
pattern: only image-extension references are inlined. -/
def xlinkReplace (basePath : List Nat) (files : Archive) (m : MatchParts) : List Nat :=
  if isImageFile m.g3 then
    let d := resolveAndEmbed m.g3 basePath files
    if d = [] then m.g1 ++ m.g2 ++ m.g3 ++ m.g4
    else m.g1 ++ m.g2 ++ d ++ m.g4
  else m.g1 ++ m.g2 ++ m.g3 ++ m.g4

/-- The replacement closure for the style background-image pattern. -/
def urlReplace (basePath : List Nat) (files : Archive) (m : MatchParts) : List Nat :=
  if isImageFile m.g3 then
    let d := resolveAndEmbed m.g3 basePath files
    if d = [] then m.g1 ++ m.g2 ++ m.g3 ++ m.g4
    else m.g1 ++ m.g2 ++ d ++ m.g4
  else m.g1 ++ m.g2 ++ m.g3 ++ m.g4

/-- Models `Regexp.ReplaceAllStringFunc`: scan left to right, replace
each leftmost non-overlapping match, continue after it.  (Every pattern
here consumes at least one byte; the length guard only makes the
recursion structurally evident.) -/
def replaceAllM (m : List Nat → Option MatchParts) (f : MatchParts → List Nat) :
    List Nat → List Nat
  | [] => []
  | c :: rest =>
    match m (c :: rest) with
    | some mp =>
      if _hlt : mp.rest.length ≤ rest.length then f mp ++ replaceAllM m f mp.rest
      else c :: replaceAllM m f rest
    | none => c :: replaceAllM m f rest
termination_by s => s.length
decreasing_by
  all_goals simp only [List.length_cons]; omega

/-- Whether an anchored match of `m` exists at any position of `s`. -/
def findIn (m : List Nat → Option MatchParts) : List Nat → Bool
  | [] => false
  | c :: rest => (m (c :: rest)).isSome || findIn m rest

/-- Models `embedImages` from `parser.go`: the three rewriting passes in
source order. -/
def embedImages (content basePath : List Nat) (files : Archive) : List Nat :=
  let c1 := replaceAllM matchImgSrc (imgReplace basePath files) content
  let c2 := replaceAllM matchXlink (xlinkReplace basePath files) c1
  replaceAllM matchCssUrl (urlReplace basePath files) c2

/-! ### The package document and `Parse`'s spine/manifest walk -/

/-- A manifest `<item>`. -/
structure ManifestItem where
  id : List Nat
  href : List Nat
  mediaType : List Nat
  deriving Repr, DecidableEq

/-- A spine `<itemref>`. -/
structure SpineRef where
  idref : List Nat
  deriving Repr, DecidableEq

/-- The decoded OPF package document. -/
structure Pkg where
  title : List Nat
  creator : List Nat
  manifest : List ManifestItem
  spine : List SpineRef
  deriving Repr, DecidableEq

/-- A produced chapter. -/
structure Chapter where
  title : List Nat
  content : List Nat
  order : Nat
  deriving Repr, DecidableEq

/-- The parsed book. -/
structure Book where
  title : List Nat
  author : List Nat
  basePath : List Nat
  chapters : List Chapter
  css : List (List Nat)
  deriving Repr, DecidableEq

/-- The Go `manifestMap` lookup: a map built by insertion in manifest
order, so the last item with a given id wins. -/
def manifestLookup (items : List ManifestItem) (id : List Nat) : Option ManifestItem :=
  items.reverse.find? (fun it => it.id == id)

/-- One iteration of `Parse`'s spine loop: the chapter produced for
spine position `i`, or `none` when the entry is skipped (dangling idref,
non-html/xml media type, or missing file).  A read error on a present
zip entry is modelled as absence. -/
def chapterOf (pkg : Pkg) (basePath : List Nat) (files : Archive) (i : Nat)
    (ref : SpineRef) : Option Chapter :=
  match manifestLookup pkg.manifest ref.idref with
  | none => none
  | some item =>
    if containsSeq (bytes "html") item.mediaType ||
        containsSeq (bytes "xml") item.mediaType then
      let chapterPath := resolvePath basePath item.href
      match lookupA files chapterPath with
      | none => none
      | some content =>
        some ⟨item.id, embedImages content (pathDir chapterPath) files, i⟩
    else none

/-- The spine loop of `Parse`: chapters appended in spine order, each
carrying its spine index as `Order`. -/
def buildChapters (pkg : Pkg) (basePath : List Nat) (files : Archive) : List Chapter :=
  pkg.spine.enum.filterMap (fun p => chapterOf pkg basePath files p.1 p.2)

/-- The CSS loop of `Parse`: manifest items with media type exactly
`text/css` whose file is present, in manifest declaration order. -/
def buildCSS (pkg : Pkg) (basePath : List Nat) (files : Archive) : List (List Nat) :=
  pkg.manifest.filterMap (fun item =>
    if item.mediaType = bytes "text/css" then
      let cssPath := resolvePath basePath item.href
      match lookupA files cssPath with
      | none => none
      | some content => some (embedImages content (pathDir cssPath) files)
    else none)

/-- Go's `sort.Slice` on the chapter list with `Order <` as the
comparison.  `sort.Slice` is an unstable comparison sort; the `Order`
keys here are pairwise distinct, so its result is the unique arrangement
that any correct comparison sort produces, modelled by insertion sort. -/
def sortChapters (l : List Chapter) : List Chapter :=
  l.insertionSort (fun a b => a.order ≤ b.order)

/-- The pure core of `Parse` after the container/OPF XML has been
decoded: metadata, CSS extraction, the spine walk, and the final sort. -/
def parseBook (pkg : Pkg) (basePath : List Nat) (files : Archive) : Book :=
  { title := pkg.title
    author := pkg.creator
    basePath := basePath
    chapters := sortChapters (buildChapters pkg basePath files)
    css := buildCSS pkg basePath files }

/-! ### The document assembler: `escapeHTML` and `extractBodyContent` -/

/-- Models `strings.ReplaceAll(s, old, new)` for non-empty `old`: scan
left to right, replace non-overlapping occurrences, never rescanning
replacement text.  (Go's special empty-`old` behavior is irrelevant
here; the guard keeps the recursion well-founded.) -/
def replaceAllStr (old new : List Nat) : List Nat → List Nat
  | [] => []
  | c :: rest =>
    if _h : hasPrefixB old (c :: rest) = true ∧ old ≠ [] then
      new ++ replaceAllStr old new ((c :: rest).drop old.length)
    else c :: replaceAllStr old new rest
termination_by s => s.length
decreasing_by
  all_goals simp only [List.length_drop, List.length_cons]
  · have := hasPrefixB_length _h.1
    have : old.length ≥ 1 := by
      cases old with
      | nil => exact absurd rfl _h.2
      | cons _ _ => simp
    omega
  · omega

/-- Models `escapeHTML` from `parser.go`: the four replacements in
source order. -/
def escapeHTML (s : List Nat) : List Nat :=
  replaceAllStr (bytes "\"") (bytes "&quot;")
    (replaceAllStr (bytes ">") (bytes "&gt;")
      (replaceAllStr (bytes "<") (bytes "&lt;")
        (replaceAllStr (bytes "&") (bytes "&amp;") s)))

/-- Single-pass byte-wise escaping: the specification-side description
of `escapeHTML` ("each replacement applied once, not recursively"). -/
def escapeByte (c : Nat) : List Nat :=
  if c = 38 then bytes "&amp;"
  else if c = 60 then bytes "&lt;"
  else if c = 62 then bytes "&gt;"
  else if c = 34 then bytes "&quot;"
  else [c]

/-- The byte-wise escaping map over a whole string. -/
def escapeHTMLSpec (s : List Nat) : List Nat := s.flatMap escapeByte

/-- Go slicing `s[i:j]`: `none` models the run-time panic when
`i ≤ j ≤ len(s)` fails. -/
def goSlice (s : List Nat) (i j : Nat) : Option (List Nat) :=
  if i ≤ j ∧ j ≤ s.length then some ((s.take j).drop i) else none

/-- Models `extractBodyContent` from `parser.go`.  `none` models a
run-time panic of the final slice expression. -/
def extractBodyContent (html : List Nat) : Option (List Nat) :=
  match indexOfSeq? (bytes "<body") (lowerB html) with
  | none => some html
  | some bodyStart0 =>
    match indexOfSeq? (bytes ">") (html.drop bodyStart0) with
    | none => some html
    | some rel =>
      let bodyStart := bodyStart0 + rel + 1
      let bodyEnd := (lastIndexOfSeq? (bytes "</body>") (lowerB html)).getD html.length
      goSlice html bodyStart bodyEnd

/-! ## Helper lemmas -/

theorem replaceAllM_eq_self (m : List Nat → Option MatchParts)
    (f : MatchParts → List Nat) :
    ∀ s : List Nat, findIn m s = false → replaceAllM m f s = s := by
  intro s
  induction s with
  | nil => intro _; rw [replaceAllM]
  | cons c rest ih =>
    intro h
    simp only [findIn, Bool.or_eq_false_iff] at h
    obtain ⟨h1, h2⟩ := h
    have hm : m (c :: rest) = none := by
      cases hm : m (c :: rest) with
      | none => rfl
      | some mp => rw [hm] at h1; simp at h1
    rw [replaceAllM, hm]
    simp [ih h2]

/-! ## Claim theorems -/

/-- C8: for every markup string that contains no asset references
matching any of the three pattern families (image-tag source attributes,
vector-graphics cross-reference attributes, style background-image
functions), rewriting returns the input string unchanged
byte-for-byte. -/
theorem embedImages_no_refs_identity (content basePath : List Nat) (files : Archive)
    (h1 : findIn matchImgSrc content = false)
    (h2 : findIn matchXlink content = false)
    (h3 : findIn matchCssUrl content = false) :
    embedImages content basePath files = content := by
  unfold embedImages
  simp only [replaceAllM_eq_self _ _ _ h1, replaceAllM_eq_self _ _ _ h2,
    replaceAllM_eq_self _ _ _ h3]

/-- Witness for C8 at concrete reference-free markup. -/
theorem embedImages_no_refs_identity_witness :
    findIn matchImgSrc (bytes "<p>hello world</p>") = false ∧
    findIn matchXlink (bytes "<p>hello world</p>") = false ∧
    findIn matchCssUrl (bytes "<p>hello world</p>") = false ∧
    embedImages (bytes "<p>hello world</p>") (bytes "oebps") [] =
      bytes "<p>hello world</p>" :=
  ⟨by decide, by decide, by decide,
    embedImages_no_refs_identity (bytes "<p>hello world</p>") (bytes "oebps") []
      (by decide) (by decide) (by decide)⟩

/-- C3: a reference that begins with the embedded-data-scheme prefix
(`data:`) or a network-transport-scheme prefix (`http://`, `https://`)
makes the inliner return absent, and every one of the three replacement
closures puts the original match text back unchanged. -/
theorem dataUri_passthrough (basePath : List Nat) (files : Archive) (m : MatchParts)
    (h : hasPrefixB (bytes "data:") m.g3 = true ∨
         hasPrefixB (bytes "http://") m.g3 = true ∨
         hasPrefixB (bytes "https://") m.g3 = true) :
    resolveAndEmbed m.g3 basePath files = [] ∧
    imgReplace basePath files m = m.g1 ++ m.g2 ++ m.g3 ++ m.g4 ∧
    xlinkReplace basePath files m = m.g1 ++ m.g2 ++ m.g3 ++ m.g4 ∧
    urlReplace basePath files m = m.g1 ++ m.g2 ++ m.g3 ++ m.g4 := by
  have hre : resolveAndEmbed m.g3 basePath files = [] := by
    unfold resolveAndEmbed
    rcases h with h | h | h <;> simp [h]
  refine ⟨hre, ?_, ?_, ?_⟩
  · simp [imgReplace, hre]
  · unfold xlinkReplace
    split <;> simp [hre]
  · unfold urlReplace
    split <;> simp [hre]

/-- Witness for C3 at a concrete embedded-data reference. -/
theorem dataUri_passthrough_witness :
    hasPrefixB (bytes "data:") (bytes "data:image/png;base64,AA==") = true ∧
    resolveAndEmbed (bytes "data:image/png;base64,AA==") (bytes "oebps")
      [(bytes "oebps/i.png", [1, 2])] = [] ∧
    imgReplace (bytes "oebps") [(bytes "oebps/i.png", [1, 2])]
        ⟨bytes "<img src=", [34], bytes "data:image/png;base64,AA==", [34], []⟩ =
      bytes "<img src=" ++ [34] ++ bytes "data:image/png;base64,AA==" ++ [34] := by
  refine ⟨by decide, ?_, ?_⟩
  · exact (dataUri_passthrough (bytes "oebps") [(bytes "oebps/i.png", [1, 2])]
      ⟨bytes "<img src=", [34], bytes "data:image/png;base64,AA==", [34], []⟩
      (Or.inl (by decide))).1
  · exact (dataUri_passthrough (bytes "oebps") [(bytes "oebps/i.png", [1, 2])]
      ⟨bytes "<img src=", [34], bytes "data:image/png;base64,AA==", [34], []⟩
      (Or.inl (by decide))).2.1

/-- C4: when the base-joined resolved path is absent from the archive,
the result is decided by the fallback lookups in order (cleaned
reference, then normalized resolved path); when all three lookups miss,
the inliner returns absent and every replacement closure leaves the
original reference text in place, without aborting. -/
theorem lookup_fallbacks (src basePath : List Nat) (files : Archive)
    (hpre : (hasPrefixB (bytes "data:") src || hasPrefixB (bytes "http://") src ||
      hasPrefixB (bytes "https://") src) = false)
    (h1 : lookupA files (resolveRelativePath basePath (cleanedSrc src)) = none) :
    resolveAndEmbed src basePath files =
      (match lookupA files (cleanedSrc src) with
       | some data => embedPayload (cleanedSrc src) data
       | none =>
         match lookupA files (normalizePath (resolveRelativePath basePath (cleanedSrc src))) with
         | some data => embedPayload (cleanedSrc src) data
         | none => []) ∧
    (lookupA files (cleanedSrc src) = none →
     lookupA files (normalizePath (resolveRelativePath basePath (cleanedSrc src))) = none →
     resolveAndEmbed src basePath files = [] ∧
     ∀ m : MatchParts, m.g3 = src →
       imgReplace basePath files m = m.g1 ++ m.g2 ++ m.g3 ++ m.g4 ∧
       xlinkReplace basePath files m = m.g1 ++ m.g2 ++ m.g3 ++ m.g4 ∧
       urlReplace basePath files m = m.g1 ++ m.g2 ++ m.g3 ++ m.g4) := by
  have hmain : resolveAndEmbed src basePath files =
      (match lookupA files (cleanedSrc src) with
       | some data => embedPayload (cleanedSrc src) data
       | none =>
         match lookupA files (normalizePath (resolveRelativePath basePath (cleanedSrc src))) with
         | some data => embedPayload (cleanedSrc src) data
         | none => []) := by
    unfold resolveAndEmbed
    rw [if_neg (by simp [hpre])]
    simp only [h1]
  refine ⟨hmain, fun h2 h3 => ?_⟩
  have hzero : resolveAndEmbed src basePath files = [] := by
    rw [hmain, h2, h3]
  refine ⟨hzero, fun m hg3 => ?_⟩
  rw [← hg3] at hzero
  refine ⟨?_, ?_, ?_⟩
  · simp [imgReplace, hzero]
  · unfold xlinkReplace
    split <;> simp [hzero]
  · unfold urlReplace
    split <;> simp [hzero]

/-- Witness for C4 at a concrete missing reference. -/
theorem lookup_fallbacks_witness :
    lookupA [] (resolveRelativePath (bytes "oebps") (cleanedSrc (bytes "missing.png"))) = none ∧
    resolveAndEmbed (bytes "missing.png") (bytes "oebps") [] = [] := by
  refine ⟨by decide, ?_⟩
  have h := lookup_fallbacks (bytes "missing.png") (bytes "oebps") []
    (by decide) (by decide)
  exact ((h.2 (by decide) (by decide)).1)

/-- C10: body extraction is NOT total.  On `"</body><body>"` the code
computes start index 13 (end of the opening `<body` tag) and end index 0
(last `</body>` marker), and the Go slice `html[13:0]` panics with a
slice-bounds error; the model returns `none` there. -/
theorem extractBodyContent_panics :
    extractBodyContent (bytes "</body><body>") = none := by decide

/-- Concrete package for the C2 counterexample: the first spine entry's
idref is dangling, the second resolves. -/
def pkgGap : Pkg :=
  ⟨bytes "T", bytes "A",
    [⟨bytes "b", bytes "b.xhtml", bytes "application/xhtml+xml"⟩],
    [⟨bytes "a"⟩, ⟨bytes "b"⟩]⟩

/-- Archive for the C2 counterexample. -/
def filesGap : Archive := [(bytes "b.xhtml", bytes "<p>x</p>")]

/-- C2 counterexample: with a skipped spine entry the produced chapters
do NOT carry zero-based sequential order values; the single produced
chapter has `Order = 1` (its spine index), not `0`, so the order list
differs from `range (number of chapters)`. -/
theorem chapters_order_gap_counterexample :
    ((parseBook pkgGap [] filesGap).chapters.map (fun c => c.order)) = [1] ∧
    ((parseBook pkgGap [] filesGap).chapters.map (fun c => c.order)) ≠
      List.range (parseBook pkgGap [] filesGap).chapters.length := by
  refine ⟨by decide, by decide⟩

/-! Lemmas for C6 (parent-directory clamping). -/

/-- A reference prefixed by `k` leading `../` segments. -/
def dotdots (k : Nat) (rest : List Nat) : List Nat :=
  (List.replicate k (bytes "../")).flatten ++ rest

theorem dotdots_succ (k : Nat) (rest : List Nat) :
    dotdots (k + 1) rest = bytes "../" ++ dotdots k rest := by
  simp [dotdots, List.replicate_succ]

/-- Consuming one leading `../` segment against a non-empty base. -/
theorem resolveRelativePath_dotdot (basePath rest : List Nat) (hb : basePath ≠ []) :
    resolveRelativePath basePath (bytes "../" ++ rest) =
      resolveRelativePath (pathDir basePath) rest := by
  rw [resolveRelativePath]
  rw [if_neg hb, dif_pos (hasPrefixB_append (bytes "../") rest)]
  congr 1

/-- At the shallowest directory `.` every further `../` segment is
absorbed: `path.Dir(".") = "."`. -/
theorem resolveRelativePath_dot_absorb (k : Nat) (rest : List Nat) :
    resolveRelativePath (bytes ".") (dotdots k rest) =
      resolveRelativePath (bytes ".") rest := by
  induction k with
  | zero => simp [dotdots]
  | succ k ih =>
    rw [dotdots_succ, resolveRelativePath_dotdot _ _ (by decide)]
    have hdir : pathDir (bytes ".") = bytes "." := by decide
    rw [hdir, ih]

/-- The cleaned path is never the empty string. -/
theorem pathClean_ne_nil (p : List Nat) : pathClean p ≠ [] := by
  unfold pathClean
  split
  · decide
  · dsimp only
    split
    · simp
    · split
      · decide
      · assumption

/-- `path.Dir` never returns the empty string. -/
theorem pathDir_ne_nil (p : List Nat) : pathDir p ≠ [] := by
  unfold pathDir
  split
  · decide
  · exact pathClean_ne_nil _

/-- C6: parent-segment consumption is a total function and never
crashes: against any non-empty base directory, `k` leading `../`
segments resolve by joining the remainder at the `k`-fold parent
directory of the base (first conjunct); in particular, for every count
of `../` segments exceeding the depth of the two-level base directory
`x/y` of the spec's boundary instance, resolution clamps at the
shallowest available directory `.` — which absorbs all further `../`
segments since `path.Dir(".") = "."` — instead of producing a path above
the archive's logical root (second conjunct). -/
theorem dotdot_clamping :
    (∀ (basePath rest : List Nat) (k : Nat), basePath ≠ [] →
      hasPrefixB (bytes "../") rest = false →
      resolveRelativePath basePath (dotdots k rest) =
        pathJoin2 (pathDir^[k] basePath) rest) ∧
    (∀ (k : Nat) (rest : List Nat), hasPrefixB (bytes "../") rest = false →
      resolveRelativePath (bytes "x/y") (dotdots (k + 3) rest) =
        pathJoin2 (bytes ".") rest) := by
  have habs : ∀ (basePath rest : List Nat) (k : Nat), basePath ≠ [] →
      hasPrefixB (bytes "../") rest = false →
      resolveRelativePath basePath (dotdots k rest) =
        pathJoin2 (pathDir^[k] basePath) rest := by
    intro basePath rest k
    induction k generalizing basePath with
    | zero =>
      intro hb h
      simp only [dotdots, List.replicate, List.flatten_nil, List.nil_append,
        Function.iterate_zero, id]
      rw [resolveRelativePath]
      rw [if_neg hb, dif_neg (by simp [h])]
    | succ k ih =>
      intro hb h
      rw [dotdots_succ, resolveRelativePath_dotdot _ _ hb,
        ih (pathDir basePath) (pathDir_ne_nil basePath) h,
        Function.iterate_succ_apply]
  refine ⟨habs, fun k rest h => ?_⟩
  rw [dotdots_succ, resolveRelativePath_dotdot _ _ (by decide)]
  have hd1 : pathDir (bytes "x/y") = bytes "x" := by decide
  rw [hd1, dotdots_succ, resolveRelativePath_dotdot _ _ (by decide)]
  have hd2 : pathDir (bytes "x") = bytes "." := by decide
  rw [hd2, resolveRelativePath_dot_absorb]
  rw [resolveRelativePath]
  rw [if_neg (by decide), dif_neg (by simp [h])]

/-- Witness for C6: three `../` segments against the two-level base
`x/y` resolve to the archive's top level. -/
theorem dotdot_clamping_witness :
    hasPrefixB (bytes "../") (bytes "img.png") = false ∧
    resolveRelativePath (bytes "x/y") (dotdots 3 (bytes "img.png")) = bytes "img.png" := by
  refine ⟨by decide, ?_⟩
  rw [dotdot_clamping.2 0 (bytes "img.png") (by decide)]
  decide

/-! Lemmas for C5 (percent-decoding). -/

theorem validEscapes_cons (c : Nat) (t : List Nat) (h37 : c ≠ 37) :
    validEscapes (c :: t) = validEscapes t := by
  rw [validEscapes.eq_def]
  split <;> simp_all

theorem unescapeRun_cons (c : Nat) (t : List Nat) (h37 : c ≠ 37) (h43 : c ≠ 43) :
    unescapeRun (c :: t) = c :: unescapeRun t := by
  rw [unescapeRun.eq_def]
  split <;> simp_all

theorem percentPlusDecode_cons (c : Nat) (t : List Nat) (h37 : c ≠ 37) (h43 : c ≠ 43) :
    percentPlusDecode (c :: t) = (percentPlusDecode t).map (c :: ·) := by
  rw [percentPlusDecode.eq_def]
  split <;> simp_all

theorem queryUnescape_eq_percentPlusDecode (s : List Nat) :
    queryUnescape s = percentPlusDecode s := by
  induction s using percentPlusDecode.induct with
  | case1 => rfl
  | case2 h1 h2 t hhex ih =>
    have hp : percentPlusDecode (37 :: h1 :: h2 :: t) =
        (percentPlusDecode t).map ((16 * unhexB h1 + unhexB h2) :: ·) := by
      simp [percentPlusDecode, hhex]
    rw [hp, ← ih]
    simp only [queryUnescape, validEscapes, hhex, Bool.true_and, unescapeRun]
    by_cases hv : validEscapes t = true
    · simp [hv]
    · simp only [Bool.not_eq_true] at hv
      simp [hv]
  | case3 h1 h2 t hhex =>
    simp only [Bool.not_eq_true] at hhex
    simp [queryUnescape, validEscapes, percentPlusDecode, hhex]
  | case4 tail htail =>
    cases tail with
    | nil => rfl
    | cons x t2 =>
      cases t2 with
      | nil => rfl
      | cons y t3 => exact absurd rfl (fun h => htail x y t3 h)
  | case5 t ih =>
    have hp : percentPlusDecode (43 :: t) = (percentPlusDecode t).map (32 :: ·) := rfl
    rw [hp, ← ih]
    have hv := validEscapes_cons 43 t (by decide)
    simp only [queryUnescape, hv]
    by_cases hvt : validEscapes t = true
    · simp only [hvt, if_true]
      rfl
    · simp only [Bool.not_eq_true] at hvt
      simp [hvt]
  | case6 c t hshape hc37 hc43 ih =>
    have h37 : c ≠ 37 := fun h => hc37 h
    have h43 : c ≠ 43 := fun h => hc43 h
    rw [percentPlusDecode_cons c t h37 h43, ← ih]
    simp only [queryUnescape, validEscapes_cons c t h37]
    by_cases hvt : validEscapes t = true
    · simp [hvt, unescapeRun_cons c t h37 h43]
    · simp only [Bool.not_eq_true] at hvt
      simp [hvt]

/-- Unfolding equation for `resolveRelativePath` on the empty base. -/
theorem resolveRelativePath_nil (href : List Nat) :
    resolveRelativePath [] href = href := by
  rw [resolveRelativePath]
  simp

/-- Unfolding equation for `resolveAndEmbed` past the scheme check:
three lookups in order, then the payload. -/
theorem resolveAndEmbed_eq (src basePath : List Nat) (files : Archive)
    (hpre : (hasPrefixB (bytes "data:") src || hasPrefixB (bytes "http://") src ||
      hasPrefixB (bytes "https://") src) = false) :
    resolveAndEmbed src basePath files =
      (match lookupA files (resolveRelativePath basePath (cleanedSrc src)) with
       | some data => embedPayload (cleanedSrc src) data
       | none =>
         match lookupA files (cleanedSrc src) with
         | some data => embedPayload (cleanedSrc src) data
         | none =>
           match lookupA files (normalizePath (resolveRelativePath basePath (cleanedSrc src))) with
           | some data => embedPayload (cleanedSrc src) data
           | none => []) := by
  unfold resolveAndEmbed
  rw [if_neg (by simp [hpre])]

/-- C5 counterexample: percent-decoding is not the only alteration.  The
reference `a+b.png` contains no percent escape, yet the decode step
turns it into `a b.png` (query-string semantics of `+`), and as an
observable consequence the inliner misses an archive entry stored
under the literal name `a+b.png`. -/
theorem decode_plus_counterexample :
    cleanedSrc (bytes "a+b.png") = bytes "a b.png" ∧
    bytes "a b.png" ≠ bytes "a+b.png" ∧
    resolveAndEmbed (bytes "a+b.png") [] [(bytes "a+b.png", [1])] = [] := by
  refine ⟨by decide, by decide, ?_⟩
  rw [resolveAndEmbed_eq _ _ _ (by decide), resolveRelativePath_nil]
  decide

/-- C5 amended: after fragment stripping, the inliner's decode step
decodes every `%XX` escape to its byte, additionally replaces `+` with a
space, and leaves every other byte unchanged; when decoding fails
(malformed percent escape) it proceeds with the undecoded string. -/
theorem cleanedSrc_decode_spec (src : List Nat) :
    cleanedSrc src =
      (percentPlusDecode (stripFragment src)).getD (stripFragment src) := by
  unfold cleanedSrc decodeStep
  rw [queryUnescape_eq_percentPlusDecode]

/-! Lemmas for C9 (HTML escaping). -/

/-- Applying `strings.ReplaceAll` with a single-byte pattern is a byte-wise map. -/
theorem replaceAllStr_single (b : Nat) (new : List Nat) :
    ∀ s : List Nat,
      replaceAllStr [b] new s = s.flatMap (fun c => if c = b then new else [c]) := by
  intro s
  induction s with
  | nil => rw [replaceAllStr]; rfl
  | cons c rest ih =>
    rw [replaceAllStr]
    by_cases hcb : c = b
    · rw [dif_pos ⟨by simp [hasPrefixB, hcb], by simp⟩]
      subst hcb
      simp [ih]
    · rw [dif_neg (by simp [hasPrefixB, Ne.symm hcb])]
      simp [ih, hcb]

/-- The four replacement stages act on a single byte exactly as the
byte-wise escaping map: the `&` introduced by a replacement is never
re-escaped since the `&` pass runs first. -/
theorem escapeByte_stages (c : Nat) :
    ((((if c = 38 then bytes "&amp;" else [c]).flatMap
        (fun d => if d = 60 then bytes "&lt;" else [d])).flatMap
        (fun d => if d = 62 then bytes "&gt;" else [d])).flatMap
        (fun d => if d = 34 then bytes "&quot;" else [d])) = escapeByte c := by
  by_cases h38 : c = 38
  · subst h38; decide
  · by_cases h60 : c = 60
    · subst h60; decide
    · by_cases h62 : c = 62
      · subst h62; decide
      · by_cases h34 : c = 34
        · subst h34; decide
        · simp [escapeByte, h38, h60, h62, h34]

/-- C9: `escapeHTML` replaces `&`, `<`, `>`, `"` by their named
character references in that order, each applied once and not
recursively — equivalently, it equals the single-pass byte-wise
escaping map, so text introduced by one replacement is never touched by
a later pass re-examining it. -/
theorem escapeHTML_spec (s : List Nat) : escapeHTML s = escapeHTMLSpec s := by
  unfold escapeHTML escapeHTMLSpec
  have hamp : bytes "&" = [38] := rfl
  have hlt : bytes "<" = [60] := rfl
  have hgt : bytes ">" = [62] := rfl
  have hq : bytes "\"" = [34] := rfl
  rw [hamp, hlt, hgt, hq, replaceAllStr_single, replaceAllStr_single,
    replaceAllStr_single, replaceAllStr_single]
  induction s with
  | nil => rfl
  | cons c rest ih =>
    simp only [List.flatMap_cons, List.flatMap_append]
    rw [ih, escapeByte_stages]

/-! Lemmas for C7 (base64 round-trip). -/

theorem b64inv_b64char : ∀ i, i < 64 → b64inv (b64char i) = i := by decide

theorem b64char_ne_61 : ∀ i, i < 64 → b64char i ≠ 61 := by decide

/-- Standard base64 decoding is a left inverse of encoding on byte
sequences. -/
theorem base64_roundtrip :
    ∀ data : List Nat, (∀ b ∈ data, b < 256) →
      base64decode (base64encode data) = data := by
  intro data
  induction data using base64encode.induct with
  | case1 => intro _; rfl
  | case2 b1 =>
    intro h
    have hb1 : b1 < 256 := h b1 (by simp)
    simp only [base64encode, base64decode, if_true]
    rw [b64inv_b64char _ (Nat.mod_lt _ (by norm_num)),
      b64inv_b64char _ (Nat.mod_lt _ (by norm_num))]
    simp only [List.cons.injEq, and_true]
    omega
  | case3 b1 b2 =>
    intro h
    have hb1 : b1 < 256 := h b1 (by simp)
    have hb2 : b2 < 256 := h b2 (by simp)
    simp only [base64encode, base64decode, if_true]
    rw [if_neg (b64char_ne_61 _ (Nat.mod_lt _ (by norm_num)))]
    rw [b64inv_b64char _ (Nat.mod_lt _ (by norm_num)),
      b64inv_b64char _ (Nat.mod_lt _ (by norm_num)),
      b64inv_b64char _ (Nat.mod_lt _ (by norm_num))]
    simp only [List.cons.injEq, and_true]
    constructor
    · omega
    · omega
  | case4 b1 b2 b3 rest ih =>
    intro h
    have hb1 : b1 < 256 := h b1 (by simp)
    have hb2 : b2 < 256 := h b2 (by simp)
    have hb3 : b3 < 256 := h b3 (by simp)
    have hrest : ∀ b ∈ rest, b < 256 := fun b hb => h b (by simp [hb])
    simp only [base64encode, base64decode]
    rw [if_neg (b64char_ne_61 _ (Nat.mod_lt _ (by norm_num)))]
    rw [b64inv_b64char _ (Nat.mod_lt _ (by norm_num)),
      b64inv_b64char _ (Nat.mod_lt _ (by norm_num)),
      b64inv_b64char _ (Nat.mod_lt _ (by norm_num)),
      b64inv_b64char _ (Nat.mod_lt _ (by norm_num))]
    rw [ih hrest]
    simp only [List.cons.injEq, and_true]
    refine ⟨?_, ?_, ?_⟩ <;> omega

/-- C7: for every byte sequence stored at the resolved path of a
reference with a recognized image extension, the inliner produces
`data:<mediaType>;base64,<encoded>` with the payload's base64 portion
decoding back to exactly the stored bytes. -/
theorem inline_payload_roundtrip (src basePath : List Nat) (files : Archive)
    (data : List Nat)
    (hpre : (hasPrefixB (bytes "data:") src || hasPrefixB (bytes "http://") src ||
      hasPrefixB (bytes "https://") src) = false)
    (hhit : lookupA files (resolveRelativePath basePath (cleanedSrc src)) = some data)
    (hmime : getMimeType (cleanedSrc src) ≠ [])
    (hbytes : ∀ b ∈ data, b < 256) :
    resolveAndEmbed src basePath files =
      bytes "data:" ++ getMimeType (cleanedSrc src) ++ bytes ";base64," ++
        base64encode data ∧
    base64decode (base64encode data) = data := by
  constructor
  · rw [resolveAndEmbed_eq src basePath files hpre, hhit]
    dsimp only
    simp [embedPayload, hmime]
  · exact base64_roundtrip data hbytes

/-- Witness for C7: a four-byte PNG-header payload at a resolvable
path. -/
theorem inline_payload_roundtrip_witness :
    lookupA [(bytes "img.png", [137, 80, 78, 71])]
        (resolveRelativePath [] (cleanedSrc (bytes "img.png"))) =
      some [137, 80, 78, 71] ∧
    resolveAndEmbed (bytes "img.png") [] [(bytes "img.png", [137, 80, 78, 71])] =
      bytes "data:" ++ getMimeType (cleanedSrc (bytes "img.png")) ++
        bytes ";base64," ++ base64encode [137, 80, 78, 71] ∧
    base64decode (base64encode [137, 80, 78, 71]) = [137, 80, 78, 71] := by
  have hhit : lookupA [(bytes "img.png", [137, 80, 78, 71])]
      (resolveRelativePath [] (cleanedSrc (bytes "img.png"))) =
        some [137, 80, 78, 71] := by
    rw [resolveRelativePath_nil]; decide
  have h := inline_payload_roundtrip (bytes "img.png") []
    [(bytes "img.png", [137, 80, 78, 71])] [137, 80, 78, 71]
    (by decide) hhit (by decide) (by decide)
  exact ⟨hhit, h.1, h.2⟩

/-! Lemmas for C1 and C2 (spine walk ordering). -/

theorem chapterOf_order (pkg : Pkg) (basePath : List Nat) (files : Archive)
    (i : Nat) (ref : SpineRef) (c : Chapter)
    (h : chapterOf pkg basePath files i ref = some c) : c.order = i := by
  unfold chapterOf at h
  split at h
  · exact absurd h (by simp)
  · split at h
    · dsimp only at h
      split at h
      · exact absurd h (by simp)
      · cases h; rfl
    · exact absurd h (by simp)

theorem spineWalk_pairwise (pkg : Pkg) (basePath : List Nat) (files : Archive) :
    ∀ (l : List SpineRef) (k : Nat),
      ((l.enumFrom k).filterMap
        (fun p => chapterOf pkg basePath files p.1 p.2)).Pairwise
          (fun a b => a.order < b.order) ∧
      ∀ c ∈ (l.enumFrom k).filterMap (fun p => chapterOf pkg basePath files p.1 p.2),
        k ≤ c.order := by
  intro l
  induction l with
  | nil => intro k; simp
  | cons r t ih =>
    intro k
    rw [List.enumFrom_cons, List.filterMap_cons]
    cases hc : chapterOf pkg basePath files k r with
    | none =>
      refine ⟨(ih (k + 1)).1, fun c hcm => ?_⟩
      exact Nat.le_of_succ_le ((ih (k + 1)).2 c hcm)
    | some c0 =>
      have hord : c0.order = k := chapterOf_order _ _ _ _ _ _ hc
      constructor
      · refine List.Pairwise.cons (fun d hd => ?_) (ih (k + 1)).1
        have := (ih (k + 1)).2 d hd
        omega
      · intro c hcm
        rcases List.mem_cons.mp hcm with hce | hcm2
        · subst hce; omega
        · have := (ih (k + 1)).2 c hcm2
          omega

theorem buildChapters_pairwise (pkg : Pkg) (basePath : List Nat) (files : Archive) :
    (buildChapters pkg basePath files).Pairwise (fun a b => a.order < b.order) := by
  unfold buildChapters
  rw [List.enum_eq_enumFrom]
  exact (spineWalk_pairwise pkg basePath files pkg.spine 0).1

/-- The final `sort.Slice` is a no-op: the appended chapter list is
already strictly increasing in `Order`. -/
theorem sortChapters_buildChapters (pkg : Pkg) (basePath : List Nat) (files : Archive) :
    sortChapters (buildChapters pkg basePath files) = buildChapters pkg basePath files := by
  apply List.Sorted.insertionSort_eq
  exact (buildChapters_pairwise pkg basePath files).imp (fun h => Nat.le_of_lt h)

/-- C1: for every package document, base directory and archive, the
number of produced chapters is at most the number of spine entries, and
the `Order` fields of adjacent chapters are strictly increasing. -/
theorem chapters_bounded_and_increasing (pkg : Pkg) (basePath : List Nat)
    (files : Archive) :
    (parseBook pkg basePath files).chapters.length ≤ pkg.spine.length ∧
    List.Chain' (fun a b => a.order < b.order)
      (parseBook pkg basePath files).chapters := by
  have hid := sortChapters_buildChapters pkg basePath files
  constructor
  · show (sortChapters (buildChapters pkg basePath files)).length ≤ _
    rw [hid]
    unfold buildChapters
    have h1 := List.length_filterMap_le
      (fun p : Nat × SpineRef => chapterOf pkg basePath files p.1 p.2) pkg.spine.enum
    rwa [List.enum_length] at h1
  · show List.Chain' _ (sortChapters (buildChapters pkg basePath files))
    rw [hid]
    exact (buildChapters_pairwise pkg basePath files).chain'

/-- C2 amended: chapters are emitted in spine order (the final sort is
the identity), each produced chapter's `Order` is the spine index of its
originating entry — so `Order` values are strictly increasing but keep
gaps where spine entries are skipped, rather than being renumbered
sequentially — and style sheets are collected in manifest declaration
order. -/
theorem chapters_spine_indexed_css_manifest_ordered (pkg : Pkg) (basePath : List Nat)
    (files : Archive) :
    (parseBook pkg basePath files).chapters =
      pkg.spine.enum.filterMap (fun p => chapterOf pkg basePath files p.1 p.2) ∧
    (∀ c ∈ (parseBook pkg basePath files).chapters,
      ∃ p ∈ pkg.spine.enum,
        chapterOf pkg basePath files p.1 p.2 = some c ∧ c.order = p.1) ∧
    (parseBook pkg basePath files).css =
      pkg.manifest.filterMap (fun item =>
        if item.mediaType = bytes "text/css" then
          match lookupA files (resolvePath basePath item.href) with
          | none => none
          | some content =>
            some (embedImages content (pathDir (resolvePath basePath item.href)) files)
        else none) := by
  have hid := sortChapters_buildChapters pkg basePath files
  refine ⟨hid, fun c hcm => ?_, rfl⟩
  rw [show (parseBook pkg basePath files).chapters =
    sortChapters (buildChapters pkg basePath files) from rfl, hid] at hcm
  unfold buildChapters at hcm
  rcases List.mem_filterMap.mp hcm with ⟨p, hp, hcp⟩
  exact ⟨p, hp, hcp, chapterOf_order _ _ _ _ _ _ hcp⟩

end Epub2Pdf
